import Mathlib

/-
Verification of the VGA text-buffer writer of the rustos repository
(src/src/vga_buffer.rs), as a shallow embedding in Lean 4.

The frame buffer is a 25 x 80 matrix of screen cells.  Rust's arrays are
bounds-checked, so every cell access is modelled as a fallible operation
(`Option`): an index outside `row < BUFFER_HEIGHT` or `col < BUFFER_WIDTH`
is the panicking branch and yields `none`.  Machine integers that matter
here (`u8` byte values, the attribute byte) stay below 256 everywhere, so
they are modelled as `Nat`.
-/

namespace RustOS

/-- Height of the VGA frame buffer (`BUFFER_HEIGHT` in the source). -/
def BUFFER_HEIGHT : Nat := 25

/-- Width of the VGA frame buffer (`BUFFER_WIDTH` in the source). -/
def BUFFER_WIDTH : Nat := 80

/-- The 16-entry VGA color enumeration, in source order (`enum Color`). -/
inductive Color where
  | BLACK
  | BLUE
  | GREEN
  | CYAN
  | RED
  | MAGENTA
  | BROWN
  | LIGHTGRAY
  | DARKGRAY
  | LIGHTBLUE
  | LIGHTGREEN
  | LIGHTCYAN
  | LIGHTRED
  | PINK
  | YELLOW
  | WHITE
deriving DecidableEq, Repr

/-- The `repr(u8)` discriminant of a color: its position in the enum. -/
def Color.code : Color → Nat
  | .BLACK => 0
  | .BLUE => 1
  | .GREEN => 2
  | .CYAN => 3
  | .RED => 4
  | .MAGENTA => 5
  | .BROWN => 6
  | .LIGHTGRAY => 7
  | .DARKGRAY => 8
  | .LIGHTBLUE => 9
  | .LIGHTGREEN => 10
  | .LIGHTCYAN => 11
  | .LIGHTRED => 12
  | .PINK => 13
  | .YELLOW => 14
  | .WHITE => 15

/-- Embeds `ColorMode::new`: the attribute byte `(background as u8) << 4 | (foreground as u8)`. -/
def ColorMode.new (foreground background : Color) : Nat :=
  (background.code <<< 4) ||| foreground.code

/-- A frame-buffer cell (`struct ScreenChar`). -/
structure ScreenChar where
  ascii_character : Nat
  color_mode : Nat
deriving DecidableEq, Repr

/-- The frame buffer, a total map from (row, col) indices to cells; the
`[[Volatile<ScreenChar>; BUFFER_WIDTH]; BUFFER_HEIGHT]` array in the source.
Indices outside the array bounds are checked at each access. -/
def Buffer : Type := Nat → Nat → ScreenChar

/-- A bounds-checked read of `buffer.chars[row][col]`; `none` is the
out-of-bounds (panic) branch. -/
def readCell (b : Buffer) (row col : Nat) : Option ScreenChar :=
  if row < BUFFER_HEIGHT ∧ col < BUFFER_WIDTH then some (b row col) else none

/-- A bounds-checked write of `buffer.chars[row][col].write(ch)`; `none` is the
out-of-bounds (panic) branch. -/
def writeCell (b : Buffer) (row col : Nat) (ch : ScreenChar) : Option Buffer :=
  if row < BUFFER_HEIGHT ∧ col < BUFFER_WIDTH then
    some (fun r c => if r = row ∧ c = col then ch else b r c)
  else none

/-- The writer state (`struct Writer`): cursor column, attribute byte, and the
borrowed frame buffer. -/
structure Writer where
  col_position : Nat
  color_mode : Nat
  buffer : Buffer

/-- Embeds `Writer::clear_row`: overwrite every column of `row` with a blank cell
carrying the writer's current attribute. -/
def Writer.clear_row (w : Writer) (row : Nat) : Option Writer :=
  let blank_char : ScreenChar := ⟨0x20, w.color_mode⟩
  ((List.range BUFFER_WIDTH).foldlM (fun b col => writeCell b row col blank_char)
      w.buffer).map fun b => { w with buffer := b }

/-- The body of `Writer::new_line`'s outer loop for a fixed `row`: copy every
column of `row` into `row - 1`. -/
def copyRowLoop (row : Nat) (b : Buffer) : Option Buffer :=
  (List.range BUFFER_WIDTH).foldlM
    (fun b col => (readCell b row col).bind fun ch => writeCell b (row - 1) col ch) b

/-- Embeds `Writer::new_line` (the scroll operation): for each row in `1..BUFFER_HEIGHT`
copy it one row up, clear the last row, and reset the column to 0. -/
def Writer.new_line (w : Writer) : Option Writer :=
  ((List.range' 1 (BUFFER_HEIGHT - 1)).foldlM (fun b row => copyRowLoop row b)
      w.buffer).bind fun b =>
    (Writer.clear_row { w with buffer := b } (BUFFER_HEIGHT - 1)).map fun w2 =>
      { w2 with col_position := 0 }

/-- Embeds `Writer::write_byte`.  Note the source captures `row`, `col` and
`color_mode` before the `col_position >= BUFFER_WIDTH` check that triggers
`new_line`, and then indexes with the captured `col`; the embedding reproduces
this order faithfully. -/
def Writer.write_byte (w : Writer) (byte : Nat) : Option Writer :=
  if byte = 10 then w.new_line
  else
    let row := BUFFER_HEIGHT - 1
    let col := w.col_position
    let color_mode := w.color_mode
    (if BUFFER_WIDTH ≤ w.col_position then w.new_line else some w).bind fun w1 =>
      (writeCell w1.buffer row col ⟨byte, color_mode⟩).map fun b =>
        { w1 with buffer := b, col_position := w1.col_position + 1 }

/-- Embeds `Writer::write_string`: iterate the bytes; forward printable ASCII
(`0x20..=0x7e`) and newline unchanged, substitute `0x3f` for everything else. -/
def Writer.write_string (w : Writer) (s : List Nat) : Option Writer :=
  s.foldlM
    (fun w byte =>
      if (0x20 ≤ byte ∧ byte ≤ 0x7e) ∨ byte = 10 then w.write_byte byte
      else w.write_byte 0x3f)
    w

/-- The attribute the `WRITER` singleton is constructed with:
yellow foreground on black background. -/
def initialAttr : Nat := ColorMode.new Color.YELLOW Color.BLACK

/-- The initial writer state of the `WRITER` singleton: column 0, yellow on
black, over whatever frame buffer lives at `0xb8000` (hence a parameter). -/
def initWriter (b : Buffer) : Writer := ⟨0, initialAttr, b⟩

/-- The public writing operations reachable through the writer's interface. -/
inductive Op where
  | writeByte (b : Nat)
  | writeString (s : List Nat)
  | scroll
  | clearRow (r : Nat)

/-- Apply one operation to a writer state. -/
def applyOp (w : Writer) : Op → Option Writer
  | .writeByte b => w.write_byte b
  | .writeString s => w.write_string s
  | .scroll => w.new_line
  | .clearRow r => w.clear_row r

/-- Run a sequence of operations; a failing (panicking) operation aborts the
rest, as a Rust panic would. -/
def runOps (w : Writer) : List Op → Option Writer
  | [] => some w
  | op :: ops => (applyOp w op).bind fun w1 => runOps w1 ops

/-- An all-blank frame buffer, used as a concrete instance. -/
def blankBuffer : Buffer := fun _ _ => ⟨0x20, initialAttr⟩

/-- Follows the spec's words for the buffer after `scroll()`: every cell of row
`r` (for `r` in `1..BUFFER_HEIGHT`) has moved to row `r - 1`, and the last row
holds blank cells carrying the writer's attribute.  Cells outside the display
matrix are untouched. -/
def scrollSpecBuffer (attr : Nat) (b : Buffer) : Buffer := fun r c =>
  if r = BUFFER_HEIGHT - 1 ∧ c < BUFFER_WIDTH then ⟨0x20, attr⟩
  else if r < BUFFER_HEIGHT - 1 ∧ c < BUFFER_WIDTH then b (r + 1) c
  else b r c

/-- Follows the spec's words for `scroll()`: rows shift up by one, the top row
is discarded, the last row becomes blank, and the column resets to 0. -/
def scrollSpec (w : Writer) : Writer :=
  ⟨0, w.color_mode, scrollSpecBuffer w.color_mode w.buffer⟩

/-- Monadic fold over a singleton list, specialized to `Option`. -/
theorem foldlM_singleton {α β : Type} (f : β → α → Option β) (b : β) (a : α) :
    List.foldlM f b [a] = f b a := by
  cases h : f b a <;> simp [List.foldlM, h]

/-- Bind of a `some`, in the `Bind.bind` form produced by `do` notation. -/
theorem someBind {α β : Type} (a : α) (f : α → Option β) : (some a >>= f) = f a := rfl

/-- A cell read inside the display matrix succeeds. -/
theorem readCell_in (b : Buffer) {row col : Nat} (h1 : row < BUFFER_HEIGHT)
    (h2 : col < BUFFER_WIDTH) : readCell b row col = some (b row col) := by
  simp only [readCell]
  rw [if_pos ⟨h1, h2⟩]

/-- A cell write inside the display matrix succeeds and updates one cell. -/
theorem writeCell_in (b : Buffer) {row col : Nat} (ch : ScreenChar)
    (h1 : row < BUFFER_HEIGHT) (h2 : col < BUFFER_WIDTH) :
    writeCell b row col ch = some (fun r c => if r = row ∧ c = col then ch else b r c) := by
  simp only [writeCell]
  rw [if_pos ⟨h1, h2⟩]

/-- A cell write beyond the row width takes the out-of-bounds branch. -/
theorem writeCell_out (b : Buffer) {row col : Nat} (ch : ScreenChar)
    (h : ¬ col < BUFFER_WIDTH) : writeCell b row col ch = none := by
  simp only [writeCell]
  rw [if_neg fun hc => h hc.2]

/-- The clear loop of `clear_row` fills the first `n` columns of `row`. -/
theorem clearLoop_eq (b : Buffer) (row : Nat) (hr : row < BUFFER_HEIGHT)
    (ch : ScreenChar) (n : Nat) (hn : n ≤ BUFFER_WIDTH) :
    (List.range n).foldlM (fun b col => writeCell b row col ch) b
      = some (fun r c => if r = row ∧ c < n then ch else b r c) := by
  induction n with
  | zero =>
    simp only [List.range_zero, List.foldlM_nil]
    congr 1
    funext r c
    simp
  | succ n ih =>
    rw [List.range_succ, List.foldlM_append, ih (by omega), someBind, foldlM_singleton]
    rw [writeCell_in _ _ hr (by omega)]
    congr 1
    funext r c
    by_cases h1 : r = row
    · by_cases h2 : c = n
      · simp [h1, h2]
      · by_cases h3 : c < n
        · simp [h1, h2, h3, (by omega : c < n + 1)]
        · rw [if_neg (by omega : ¬(r = row ∧ c = n)),
            if_neg (by omega : ¬(r = row ∧ c < n)),
            if_neg (by omega : ¬(r = row ∧ c < n + 1))]
    · simp [h1]

/-- A call of `clear_row` on an in-range row succeeds and blanks exactly that row. -/
theorem clear_row_eq (w : Writer) (row : Nat) (hr : row < BUFFER_HEIGHT) :
    w.clear_row row = some ⟨w.col_position, w.color_mode,
      fun r c => if r = row ∧ c < BUFFER_WIDTH then ⟨0x20, w.color_mode⟩
        else w.buffer r c⟩ := by
  simp only [Writer.clear_row]
  rw [clearLoop_eq w.buffer row hr _ BUFFER_WIDTH (le_refl _)]
  rfl

/-- The column loop that copies row `row` onto row `row - 1`, restricted to the
first `n` columns. -/
theorem copyRowLoopAux (b : Buffer) (row : Nat) (h1 : 1 ≤ row)
    (hr : row < BUFFER_HEIGHT) (n : Nat) (hn : n ≤ BUFFER_WIDTH) :
    (List.range n).foldlM
        (fun b col => (readCell b row col).bind fun ch => writeCell b (row - 1) col ch) b
      = some (fun r c => if r = row - 1 ∧ c < n then b row c else b r c) := by
  induction n with
  | zero =>
    simp only [List.range_zero, List.foldlM_nil]
    congr 1
    funext r c
    simp
  | succ n ih =>
    rw [List.range_succ, List.foldlM_append, ih (by omega), someBind, foldlM_singleton]
    have hrow : ¬ row = row - 1 := by omega
    rw [readCell_in _ hr (by omega), Option.some_bind]
    rw [writeCell_in _ _ (by omega : row - 1 < BUFFER_HEIGHT) (by omega : n < BUFFER_WIDTH)]
    congr 1
    funext r c
    by_cases h2 : r = row - 1
    · by_cases h3 : c = n
      · simp [h2, h3, hrow]
      · by_cases h4 : c < n
        · simp [h2, h3, h4, hrow, (by omega : c < n + 1)]
        · rw [if_neg (by omega : ¬(r = row - 1 ∧ c = n)),
            if_neg (by omega : ¬(r = row - 1 ∧ c < n)),
            if_neg (by omega : ¬(r = row - 1 ∧ c < n + 1))]
    · simp [h2, hrow]

/-- Full-width instance of the copy loop: `copyRowLoop row` replaces row
`row - 1` with the contents of row `row`. -/
theorem copyRowLoop_eq (b : Buffer) (row : Nat) (h1 : 1 ≤ row)
    (hr : row < BUFFER_HEIGHT) :
    copyRowLoop row b
      = some (fun r c => if r = row - 1 ∧ c < BUFFER_WIDTH then b row c else b r c) :=
  copyRowLoopAux b row h1 hr BUFFER_WIDTH (le_refl _)

/-- The outer loop of `new_line`, over rows `1..k+1`, shifts the first `k` rows
of the display up by one. -/
theorem shiftLoop_eq (b : Buffer) (k : Nat) (hk : k ≤ BUFFER_HEIGHT - 1) :
    (List.range' 1 k).foldlM (fun b row => copyRowLoop row b) b
      = some (fun r c => if r < k ∧ c < BUFFER_WIDTH then b (r + 1) c else b r c) := by
  induction k with
  | zero =>
    simp only [List.range'_zero, List.foldlM_nil]
    congr 1
  | succ k ih =>
    rw [List.range'_concat, List.foldlM_append, ih (by omega), someBind, foldlM_singleton]
    have hrow : 1 + 1 * k = k + 1 := by omega
    rw [hrow, copyRowLoop_eq _ (k + 1) (by omega) (by omega)]
    congr 1
    funext r c
    beta_reduce
    by_cases h2 : c < BUFFER_WIDTH
    · by_cases h3 : r = k
      · simp [h2, h3, (by omega : ¬ k + 1 < k), (by omega : k < k + 1)]
      · by_cases h4 : r < k
        · simp [h2, h3, h4, (by omega : r < k + 1)]
        · rw [if_neg (by omega : ¬(r = k + 1 - 1 ∧ c < BUFFER_WIDTH)),
            if_neg (by omega : ¬(r < k ∧ c < BUFFER_WIDTH)),
            if_neg (by omega : ¬(r < k + 1 ∧ c < BUFFER_WIDTH))]
    · simp [h2]

/-- Scrolling via `new_line` always succeeds and equals the spec-side scroll. -/
theorem new_line_eq (w : Writer) : w.new_line = some (scrollSpec w) := by
  simp only [Writer.new_line]
  rw [shiftLoop_eq w.buffer (BUFFER_HEIGHT - 1) (le_refl _), Option.some_bind]
  rw [clear_row_eq _ (BUFFER_HEIGHT - 1) (by decide), Option.map_some']
  rfl

/-- A cell write to a row below the display matrix takes the out-of-bounds
branch. -/
theorem writeCell_rowOut (b : Buffer) {row col : Nat} (ch : ScreenChar)
    (h : ¬ row < BUFFER_HEIGHT) : writeCell b row col ch = none := by
  simp only [writeCell]
  rw [if_neg fun hc => h hc.1]

/-- The clear loop fails as soon as it writes to an out-of-range row. -/
theorem clearLoop_rowOut (b : Buffer) {row : Nat} (hr : ¬ row < BUFFER_HEIGHT)
    (ch : ScreenChar) (n : Nat) (hn : 0 < n) :
    (List.range n).foldlM (fun b col => writeCell b row col ch) b = none := by
  induction n with
  | zero => omega
  | succ n ih =>
    rw [List.range_succ, List.foldlM_append]
    cases Nat.eq_zero_or_pos n with
    | inl h0 =>
      subst h0
      rw [List.range_zero, List.foldlM_nil, pure_bind, foldlM_singleton]
      rw [writeCell_rowOut b ch hr]
    | inr hpos =>
      rw [ih hpos]
      rfl

/-- A call of `clear_row` on an out-of-range row panics. -/
theorem clear_row_out (w : Writer) {row : Nat} (hr : ¬ row < BUFFER_HEIGHT) :
    w.clear_row row = none := by
  simp only [Writer.clear_row]
  rw [clearLoop_rowOut w.buffer hr _ BUFFER_WIDTH (by decide)]
  rfl

/-- A successful `clear_row` keeps the column and the attribute. -/
theorem clear_row_some {w w' : Writer} {row : Nat} (h : w.clear_row row = some w') :
    w'.color_mode = w.color_mode ∧ w'.col_position = w.col_position := by
  by_cases hr : row < BUFFER_HEIGHT
  · rw [clear_row_eq w row hr] at h
    cases h
    exact ⟨rfl, rfl⟩
  · rw [clear_row_out w hr] at h
    cases h

/-- A `write_byte` of a newline is exactly `new_line`. -/
theorem write_byte_newline_eq (w : Writer) : w.write_byte 10 = w.new_line := rfl

/-- A `write_byte` of a non-newline byte with the cursor strictly inside the row
places the byte at `(BUFFER_HEIGHT - 1, col_position)` with the writer's
attribute and advances the cursor. -/
theorem write_byte_printable_eq (w : Writer) (byte : Nat) (hb : byte ≠ 10)
    (hcol : w.col_position < BUFFER_WIDTH) :
    w.write_byte byte = some ⟨w.col_position + 1, w.color_mode,
      fun r c => if r = BUFFER_HEIGHT - 1 ∧ c = w.col_position then ⟨byte, w.color_mode⟩
        else w.buffer r c⟩ := by
  simp only [Writer.write_byte]
  rw [if_neg hb, if_neg (by omega : ¬ BUFFER_WIDTH ≤ w.col_position), Option.some_bind]
  rw [writeCell_in w.buffer _ (by decide : BUFFER_HEIGHT - 1 < BUFFER_HEIGHT) hcol,
    Option.map_some']

/-- The overflow bug: `write_byte` on a non-newline byte with the cursor at (or
beyond) the row width scrolls, but then writes at the stale column captured
before the scroll, which is out of bounds, so the operation panics. -/
theorem write_byte_overflow (w : Writer) (byte : Nat) (hb : byte ≠ 10)
    (hcol : BUFFER_WIDTH ≤ w.col_position) : w.write_byte byte = none := by
  simp only [Writer.write_byte]
  rw [if_neg hb, if_pos hcol, new_line_eq, Option.some_bind]
  rw [writeCell_out _ _ (by omega : ¬ w.col_position < BUFFER_WIDTH)]
  rfl

/-- Any successful `write_byte` leaves the cursor at or below the row width. -/
theorem write_byte_col {w w' : Writer} {byte : Nat} (h : w.write_byte byte = some w') :
    w'.col_position ≤ BUFFER_WIDTH := by
  by_cases hb : byte = 10
  · subst hb
    rw [write_byte_newline_eq, new_line_eq] at h
    cases h
    exact Nat.zero_le _
  · by_cases hc : w.col_position < BUFFER_WIDTH
    · rw [write_byte_printable_eq w byte hb hc] at h
      cases h
      show w.col_position + 1 ≤ BUFFER_WIDTH
      omega
    · rw [write_byte_overflow w byte hb (by omega)] at h
      cases h

/-- Any successful `write_byte` keeps the writer's attribute. -/
theorem write_byte_attr {w w' : Writer} {byte : Nat} (h : w.write_byte byte = some w') :
    w'.color_mode = w.color_mode := by
  by_cases hb : byte = 10
  · subst hb
    rw [write_byte_newline_eq, new_line_eq] at h
    cases h
    rfl
  · by_cases hc : w.col_position < BUFFER_WIDTH
    · rw [write_byte_printable_eq w byte hb hc] at h
      cases h
      rfl
    · rw [write_byte_overflow w byte hb (by omega)] at h
      cases h

/-- Unfolding of `write_string` on an empty byte sequence. -/
theorem write_string_nil (w : Writer) : w.write_string [] = some w := rfl

/-- Unfolding of `write_string` on the first byte. -/
theorem write_string_cons (w : Writer) (a : Nat) (s : List Nat) :
    w.write_string (a :: s) =
      (if (0x20 ≤ a ∧ a ≤ 0x7e) ∨ a = 10 then w.write_byte a
        else w.write_byte 0x3f).bind fun w1 => w1.write_string s := by
  simp only [Writer.write_string]
  rw [List.foldlM_cons]
  rfl

/-- Any successful `write_string` leaves the cursor at or below the row width,
provided it started there. -/
theorem write_string_col {w w' : Writer} {s : List Nat}
    (h : w.write_string s = some w') (hw : w.col_position ≤ BUFFER_WIDTH) :
    w'.col_position ≤ BUFFER_WIDTH := by
  induction s generalizing w with
  | nil =>
    rw [write_string_nil] at h
    cases h
    exact hw
  | cons a s ih =>
    rw [write_string_cons] at h
    cases hwb : (if (0x20 ≤ a ∧ a ≤ 0x7e) ∨ a = 10 then w.write_byte a
        else w.write_byte 0x3f) with
    | none =>
      rw [hwb] at h
      cases h
    | some w1 =>
      rw [hwb, Option.some_bind] at h
      have h1 : w1.col_position ≤ BUFFER_WIDTH := by
        by_cases hp : (0x20 ≤ a ∧ a ≤ 0x7e) ∨ a = 10
        · rw [if_pos hp] at hwb
          exact write_byte_col hwb
        · rw [if_neg hp] at hwb
          exact write_byte_col hwb
      exact ih h h1

/-- Any successful `write_string` keeps the writer's attribute. -/
theorem write_string_attr {w w' : Writer} {s : List Nat}
    (h : w.write_string s = some w') : w'.color_mode = w.color_mode := by
  induction s generalizing w with
  | nil =>
    rw [write_string_nil] at h
    cases h
    rfl
  | cons a s ih =>
    rw [write_string_cons] at h
    cases hwb : (if (0x20 ≤ a ∧ a ≤ 0x7e) ∨ a = 10 then w.write_byte a
        else w.write_byte 0x3f) with
    | none =>
      rw [hwb] at h
      cases h
    | some w1 =>
      rw [hwb, Option.some_bind] at h
      have h1 : w1.color_mode = w.color_mode := by
        by_cases hp : (0x20 ≤ a ∧ a ≤ 0x7e) ∨ a = 10
        · rw [if_pos hp] at hwb
          exact write_byte_attr hwb
        · rw [if_neg hp] at hwb
          exact write_byte_attr hwb
      exact (ih h).trans h1

/-- One public operation keeps the cursor at or below the row width. -/
theorem applyOp_col {w w' : Writer} {op : Op} (h : applyOp w op = some w')
    (hw : w.col_position ≤ BUFFER_WIDTH) : w'.col_position ≤ BUFFER_WIDTH := by
  cases op with
  | writeByte b => exact write_byte_col h
  | writeString s => exact write_string_col h hw
  | scroll =>
    simp only [applyOp] at h
    rw [new_line_eq] at h
    cases h
    exact Nat.zero_le _
  | clearRow r =>
    simp only [applyOp] at h
    rw [(clear_row_some h).2]
    exact hw

/-- One public operation keeps the writer's attribute. -/
theorem applyOp_attr {w w' : Writer} {op : Op} (h : applyOp w op = some w') :
    w'.color_mode = w.color_mode := by
  cases op with
  | writeByte b => exact write_byte_attr h
  | writeString s => exact write_string_attr h
  | scroll =>
    simp only [applyOp] at h
    rw [new_line_eq] at h
    cases h
    rfl
  | clearRow r =>
    simp only [applyOp] at h
    exact (clear_row_some h).1

/-- A successful run of public operations keeps the cursor at or below the row
width. -/
theorem runOps_col {w w' : Writer} {ops : List Op} (h : runOps w ops = some w')
    (hw : w.col_position ≤ BUFFER_WIDTH) : w'.col_position ≤ BUFFER_WIDTH := by
  induction ops generalizing w with
  | nil =>
    simp only [runOps] at h
    cases h
    exact hw
  | cons op ops ih =>
    simp only [runOps] at h
    cases hop : applyOp w op with
    | none =>
      rw [hop] at h
      cases h
    | some w1 =>
      rw [hop, Option.some_bind] at h
      exact ih h (applyOp_col hop hw)

/-- A successful run of public operations keeps the writer's attribute. -/
theorem runOps_attr {w w' : Writer} {ops : List Op} (h : runOps w ops = some w') :
    w'.color_mode = w.color_mode := by
  induction ops generalizing w with
  | nil =>
    simp only [runOps] at h
    cases h
    rfl
  | cons op ops ih =>
    simp only [runOps] at h
    cases hop : applyOp w op with
    | none =>
      rw [hop] at h
      cases h
    | some w1 =>
      rw [hop, Option.some_bind] at h
      exact (ih h).trans (applyOp_attr hop)

/-- Unfolding of `write_string` on a concatenation of byte sequences. -/
theorem write_string_append (w : Writer) (s1 s2 : List Nat) :
    w.write_string (s1 ++ s2) = (w.write_string s1).bind fun w1 => w1.write_string s2 := by
  simp only [Writer.write_string]
  rw [List.foldlM_append]
  rfl

/-- Writing a run of printable bytes that fits in the current row advances the
cursor by the run's length and stores the bytes consecutively in the last row,
leaving every other cell unchanged. -/
theorem write_string_run (s : List Nat) (w : Writer)
    (hs : ∀ a ∈ s, 0x20 ≤ a ∧ a ≤ 0x7e)
    (hfit : w.col_position + s.length ≤ BUFFER_WIDTH) :
    w.write_string s = some ⟨w.col_position + s.length, w.color_mode,
      fun r c =>
        if r = BUFFER_HEIGHT - 1 ∧ w.col_position ≤ c ∧ c < w.col_position + s.length
        then ⟨s.getD (c - w.col_position) 0, w.color_mode⟩ else w.buffer r c⟩ := by
  induction s generalizing w with
  | nil =>
    rw [write_string_nil]
    simp only [List.length_nil, Nat.add_zero]
    congr 1
    cases w with
    | mk col attr buf =>
      congr 1
      funext r c
      rw [if_neg (by omega)]
  | cons a s ih =>
    simp only [List.length_cons] at hfit ⊢
    have ha := hs a (List.mem_cons_self a s)
    rw [write_string_cons, if_pos (Or.inl ha),
      write_byte_printable_eq w a (by omega) (by omega), Option.some_bind]
    rw [ih _ (fun x hx => hs x (List.mem_cons_of_mem a hx))
      (by show w.col_position + 1 + s.length ≤ BUFFER_WIDTH; omega)]
    simp only [Option.some.injEq, Writer.mk.injEq]
    refine ⟨by omega, trivial, ?_⟩
    funext r c
    by_cases hr : r = BUFFER_HEIGHT - 1
    · by_cases hc0 : c = w.col_position
      · rw [if_neg (by omega), if_pos ⟨hr, hc0⟩,
          if_pos ⟨hr, by omega, by omega⟩]
        have h5 : c - w.col_position = 0 := by omega
        rw [h5, List.getD_cons_zero]
      · by_cases hcm : w.col_position + 1 ≤ c ∧ c < w.col_position + 1 + s.length
        · rw [if_pos ⟨hr, hcm.1, by omega⟩, if_pos ⟨hr, by omega, by omega⟩]
          have h5 : c - w.col_position = (c - (w.col_position + 1)) + 1 := by omega
          rw [h5, List.getD_cons_succ]
        · rw [if_neg (by omega), if_neg (by omega), if_neg (by omega)]
    · rw [if_neg (by omega), if_neg (by omega), if_neg (by omega)]

/-- Eighty printable bytes (filling the last row) followed by one more
printable byte: the input of the wrap-before-overflow scenario. -/
def overflowInput : List Nat := List.replicate BUFFER_WIDTH 97 ++ [98]

/-- From the initial state, writing `overflowInput` panics on its last byte:
the stale column captured before the scroll indexes `chars[24][80]`. -/
theorem write_string_overflow_panics :
    (initWriter blankBuffer).write_string overflowInput = none := by
  rw [overflowInput, write_string_append,
    write_string_run (List.replicate BUFFER_WIDTH 97) (initWriter blankBuffer)
      (fun a ha => by rw [List.eq_of_mem_replicate ha]; omega)
      (by show 0 + (List.replicate BUFFER_WIDTH 97).length ≤ BUFFER_WIDTH; simp),
    Option.some_bind]
  rw [write_string_cons, if_pos (by decide),
    write_byte_overflow _ 98 (by decide)
      (by show BUFFER_WIDTH ≤ 0 + (List.replicate BUFFER_WIDTH 97).length; simp)]
  rfl

/-- C1: the claim says a `write_byte` at `column == WIDTH` scrolls first and
then places the overflowing byte at column 0 of the new last row.  The code
instead captures the column before the overflow check, so after the scroll it
writes at the stale out-of-bounds column 80 and panics: at `column = WIDTH`
writing the printable byte 98 returns the panic branch, and no cell receives
the byte. -/
theorem c1_wrap_before_write_panics :
    Writer.write_byte ⟨BUFFER_WIDTH, initialAttr, blankBuffer⟩ 98 = none :=
  write_byte_overflow _ 98 (by decide) (le_refl _)

/-- C2: the claim says no operation reachable through the public writing
contract can fail.  It can: from the initial state, the single public
operation `write_string` on eighty printable bytes followed by one more
reaches the out-of-bounds branch, so the run of operations panics. -/
theorem c2_bounds_error_reachable :
    runOps (initWriter blankBuffer) [Op.writeString overflowInput] = none := by
  simp only [runOps, applyOp]
  rw [write_string_overflow_panics]
  rfl

/-- C3: after every successfully completed prefix of public operations from
the initial state, the column invariant `0 <= column <= WIDTH` holds. -/
theorem c3_column_invariant (b0 : Buffer) (ops : List Op) (w' : Writer)
    (h : runOps (initWriter b0) ops = some w') :
    0 ≤ w'.col_position ∧ w'.col_position ≤ BUFFER_WIDTH :=
  ⟨Nat.zero_le _, runOps_col h (Nat.zero_le _)⟩

/-- The writer state after writing one printable byte from the initial state
over a blank frame buffer. -/
def oneByteWriter : Writer :=
  ⟨1, initialAttr, fun r c =>
    if r = BUFFER_HEIGHT - 1 ∧ c = 0 then ⟨97, initialAttr⟩ else blankBuffer r c⟩

/-- Witness for C3 at a concrete run: one printable byte from the initial
state. -/
theorem c3_column_invariant_witness :
    0 ≤ oneByteWriter.col_position ∧ oneByteWriter.col_position ≤ BUFFER_WIDTH :=
  c3_column_invariant blankBuffer [Op.writeByte 97] oneByteWriter rfl

/-- Follows the spec's words for the byte-forwarding rule of `write_string`:
printable ASCII bytes and newline pass through, everything else becomes the
fallback glyph `0x3f`. -/
def translate (b : Nat) : Nat :=
  if (0x20 ≤ b ∧ b ≤ 0x7e) ∨ b = 10 then b else 0x3f

/-- C4: `write_string` folds `write_byte` over the bytes in order, forwarding
each byte through the substitution rule; concretely, writing the control byte
`0x01` from the initial state stores `0x3f`, not `0x01`, in the cell. -/
theorem c4_fallback_substitution :
    (∀ (w : Writer) (s : List Nat),
        w.write_string s = s.foldlM (fun w b => w.write_byte (translate b)) w)
    ∧ (initWriter blankBuffer).write_string [0x01]
        = some ⟨1, initialAttr, fun r c =>
            if r = BUFFER_HEIGHT - 1 ∧ c = 0 then ⟨0x3f, initialAttr⟩
            else blankBuffer r c⟩ := by
  constructor
  · intro w s
    have hbody : (fun (w : Writer) (byte : Nat) =>
        if (0x20 ≤ byte ∧ byte ≤ 0x7e) ∨ byte = 10 then w.write_byte byte
        else w.write_byte 0x3f) = fun (w : Writer) (b : Nat) => w.write_byte (translate b) := by
      funext w b
      simp only [translate]
      by_cases hp : (0x20 ≤ b ∧ b ≤ 0x7e) ∨ b = 10
      · rw [if_pos hp, if_pos hp]
      · rw [if_neg hp, if_neg hp]
    simp only [Writer.write_string]
    rw [hbody]
  · rfl

/-- C5: a newline byte triggers the scroll, and the scroll copies every cell of
row `r` into row `r - 1` (discarding the top row), blanks the last row with the
writer's attribute, and resets the column to 0 — exactly the spec-side
`scrollSpec`. -/
theorem c5_scroll_refines_spec (w : Writer) :
    w.write_byte 10 = w.new_line ∧ w.new_line = some (scrollSpec w) :=
  ⟨write_byte_newline_eq w, new_line_eq w⟩

/-- C7: the attribute byte places the background code in the high nibble and
the foreground code in the low nibble, i.e. `background * 16 + foreground`. -/
theorem c7_attribute_byte (f b : Color) :
    ColorMode.new f b = b.code * 16 + f.code := by
  cases f <;> cases b <;> rfl

/-- Follows the spec's words: the foreground is decoded from the low nibble of
the attribute byte. -/
def decode_fg (attr : Nat) : Nat := attr % 16

/-- Follows the spec's words: the background is decoded from the high nibble of
the attribute byte. -/
def decode_bg (attr : Nat) : Nat := attr / 16

/-- C8: decoding the encoded attribute byte recovers both color codes. -/
theorem c8_color_roundtrip (f b : Color) :
    decode_fg (ColorMode.new f b) = f.code ∧ decode_bg (ColorMode.new f b) = b.code := by
  cases f <;> cases b <;> exact ⟨rfl, rfl⟩

/-- The 43 ASCII byte values of the test sentence used by the repository's
`test_println_output` test. -/
def testString : List Nat :=
  [115, 111, 109, 101, 32, 116, 101, 115, 116, 32, 115, 116, 114, 105, 110, 103, 32,
   116, 104, 97, 116, 32, 102, 105, 116, 115, 32, 111, 110, 32, 97, 32, 115, 105,
   110, 103, 108, 101, 32, 108, 105, 110, 101]

/-- C6: from the initial state (column 0, any frame-buffer contents), writing
the 43-character test sentence followed by the terminating newline of the
formatted-output call leaves row `BUFFER_HEIGHT - 2` holding exactly those
characters left-aligned from column 0, with the writer's attribute. -/
theorem c6_println_second_to_last_row (b0 : Buffer) (i : Nat) (hi : i < 43) :
    ((initWriter b0).write_string (testString ++ [10])).bind
        (fun w' => readCell w'.buffer (BUFFER_HEIGHT - 2) i)
      = some ⟨testString.getD i 0, initialAttr⟩ := by
  rw [write_string_append,
    write_string_run testString (initWriter b0) (by decide)
      (by show 0 + testString.length ≤ BUFFER_WIDTH; decide),
    Option.some_bind]
  rw [write_string_cons, if_pos (Or.inr rfl), write_byte_newline_eq, new_line_eq,
    Option.some_bind, write_string_nil, Option.some_bind]
  simp only [scrollSpec, initWriter]
  rw [readCell_in _ (by decide : BUFFER_HEIGHT - 2 < BUFFER_HEIGHT)
    (by show i < 80; omega : i < BUFFER_WIDTH)]
  congr 1
  simp only [scrollSpecBuffer]
  have e1 : BUFFER_HEIGHT - 1 = 24 := rfl
  have e2 : BUFFER_HEIGHT - 2 = 23 := rfl
  have eW : BUFFER_WIDTH = 80 := rfl
  have eL : testString.length = 43 := rfl
  rw [e1, e2, eW, eL]
  rw [if_neg (by omega : ¬((23 : Nat) = 24 ∧ i < 80)),
    if_pos (⟨by omega, by omega⟩ : (23 : Nat) < 24 ∧ i < 80)]
  show (if (23 : Nat) + 1 = 24 ∧ 0 ≤ i ∧ i < 0 + 43
    then (⟨testString.getD (i - 0) 0, initialAttr⟩ : ScreenChar) else b0 (23 + 1) i) = _
  rw [if_pos ⟨rfl, Nat.zero_le i, by omega⟩, Nat.sub_zero]

/-- Witness for C6 at a concrete instance: blank initial buffer, column 0. -/
theorem c6_println_second_to_last_row_witness :
    ((initWriter blankBuffer).write_string (testString ++ [10])).bind
        (fun w' => readCell w'.buffer (BUFFER_HEIGHT - 2) 0)
      = some ⟨115, initialAttr⟩ :=
  c6_println_second_to_last_row blankBuffer 0 (by decide)

/-- A frame buffer holding one cell (row 1, column 0) whose attribute byte, 7,
differs from the writer's attribute. -/
def weirdBuffer : Buffer := fun r c =>
  if r = 1 ∧ c = 0 then ⟨65, 7⟩ else ⟨0x20, initialAttr⟩

/-- C10 counterexample: the scroll operation, run by a writer whose attribute
is `initialAttr`, stores into cell (0, 0) a copied cell whose attribute byte 7
differs from the writer's attribute, so not every cell stored by the writing
operations carries the writer's attribute byte. -/
theorem c10_counterexample_scroll_copies_foreign_attribute :
    Writer.new_line ⟨0, initialAttr, weirdBuffer⟩
        = some (scrollSpec ⟨0, initialAttr, weirdBuffer⟩)
      ∧ (scrollSpec ⟨0, initialAttr, weirdBuffer⟩).color_mode = initialAttr
      ∧ weirdBuffer 0 0 = ⟨0x20, initialAttr⟩
      ∧ (scrollSpec ⟨0, initialAttr, weirdBuffer⟩).buffer 0 0 = ⟨65, 7⟩
      ∧ ¬(7 : Nat) = initialAttr :=
  ⟨new_line_eq _, rfl, by decide, by decide, by decide⟩

/-- C10 (amended): no successful operation changes the writer's attribute
field; the cell newly written by `write_byte` and the blank cells written by
`clear_row` carry the writer's attribute; the scroll's row-copy stores each
copied cell with its original attribute (only its blank fill of the last row
carries the writer's attribute), as `scrollSpec` states. -/
theorem c10_attribute_discipline :
    (∀ (b0 : Buffer) (ops : List Op) (w' : Writer),
        runOps (initWriter b0) ops = some w' → w'.color_mode = initialAttr)
    ∧ (∀ (w : Writer) (byte : Nat) (w' : Writer), byte ≠ 10 →
        w.write_byte byte = some w' →
        w'.buffer (BUFFER_HEIGHT - 1) w.col_position = ⟨byte, w.color_mode⟩)
    ∧ (∀ (w : Writer) (row : Nat) (w' : Writer), w.clear_row row = some w' →
        ∀ c, c < BUFFER_WIDTH → w'.buffer row c = ⟨0x20, w.color_mode⟩)
    ∧ (∀ w : Writer, w.new_line = some (scrollSpec w)) := by
  refine ⟨?_, ?_, ?_, new_line_eq⟩
  · intro b0 ops w' h
    exact runOps_attr h
  · intro w byte w' hb h
    by_cases hc : w.col_position < BUFFER_WIDTH
    · rw [write_byte_printable_eq w byte hb hc] at h
      cases h
      show (if BUFFER_HEIGHT - 1 = BUFFER_HEIGHT - 1 ∧ w.col_position = w.col_position
        then (⟨byte, w.color_mode⟩ : ScreenChar)
        else w.buffer (BUFFER_HEIGHT - 1) w.col_position) = ⟨byte, w.color_mode⟩
      rw [if_pos ⟨rfl, rfl⟩]
    · rw [write_byte_overflow w byte hb (by omega)] at h
      cases h
  · intro w row w' h c hcw
    by_cases hr : row < BUFFER_HEIGHT
    · rw [clear_row_eq w row hr] at h
      cases h
      show (if row = row ∧ c < BUFFER_WIDTH then (⟨0x20, w.color_mode⟩ : ScreenChar)
        else w.buffer row c) = ⟨0x20, w.color_mode⟩
      rw [if_pos ⟨rfl, hcw⟩]
    · rw [clear_row_out w hr] at h
      cases h

/-- The writer state after one scroll from the initial state over a blank
frame buffer. -/
def scrolledInitWriter : Writer := scrollSpec (initWriter blankBuffer)

/-- Witness for C10 (amended) at concrete runs: a scroll keeps the attribute,
and one printable byte stores a cell carrying the attribute. -/
theorem c10_attribute_discipline_witness :
    scrolledInitWriter.color_mode = initialAttr
      ∧ oneByteWriter.buffer (BUFFER_HEIGHT - 1) 0 = ⟨97, initialAttr⟩ := by
  constructor
  · exact c10_attribute_discipline.1 blankBuffer [Op.scroll] scrolledInitWriter (by
      simp only [runOps, applyOp]
      rw [new_line_eq, Option.some_bind]
      rfl)
  · exact c10_attribute_discipline.2.1 (initWriter blankBuffer) 97 oneByteWriter
      (by decide) rfl

end RustOS
